import Mathlib

/-!
# Verification of the RabbitMQ-to-BigQuery pipeline (src/main.py)

This file shallowly embeds the core of `src/main.py` — the router
(`get_table_from_message`), the transformer (`transform_message`), the
loader (`write_to_bigquery`) and the pipeline driver
(`process_rabbitmq_messages`) — and proves the specification claims
about them.

Modelling conventions:
* Decoded JSON values are the inductive `Value`; JSON numbers are
  modelled as integers (no claim depends on non-integral values).
* Python dicts are association lists with unique keys in insertion
  order; dict assignment is `dictInsert` (replace-or-append).
* External collaborators (queue, BigQuery client) are oracles:
  the queue is a list of payloads (`Except String Msg`, `.error` being
  a decode failure with the exception text), each BigQuery call's
  outcome is a parameter, and the driver's loader is an abstract
  function from table name and rows to the returned error list.
* Observable actions (ack, nack, loader calls) are recorded in an
  event trace so that ordering claims can be stated.
-/

/-- A decoded JSON value, as produced by `json.loads`.  Numbers are
modelled as integers. -/
inductive Value where
  | vNull : Value
  | vBool : Bool → Value
  | vNum : Int → Value
  | vStr : String → Value
  | vArr : List Value → Value
  | vObj : List (String × Value) → Value
deriving Repr

mutual

/-- Decidable equality on `Value` (hand-rolled: `Value` is a nested
inductive). -/
def Value.decEq : (a b : Value) → Decidable (a = b)
  | .vNull, .vNull => isTrue rfl
  | .vNull, .vBool _ => isFalse (fun h => Value.noConfusion h)
  | .vNull, .vNum _ => isFalse (fun h => Value.noConfusion h)
  | .vNull, .vStr _ => isFalse (fun h => Value.noConfusion h)
  | .vNull, .vArr _ => isFalse (fun h => Value.noConfusion h)
  | .vNull, .vObj _ => isFalse (fun h => Value.noConfusion h)
  | .vBool _, .vNull => isFalse (fun h => Value.noConfusion h)
  | .vBool a, .vBool b =>
      if h : a = b then isTrue (by rw [h])
      else isFalse (by intro hh; injection hh; contradiction)
  | .vBool _, .vNum _ => isFalse (fun h => Value.noConfusion h)
  | .vBool _, .vStr _ => isFalse (fun h => Value.noConfusion h)
  | .vBool _, .vArr _ => isFalse (fun h => Value.noConfusion h)
  | .vBool _, .vObj _ => isFalse (fun h => Value.noConfusion h)
  | .vNum _, .vNull => isFalse (fun h => Value.noConfusion h)
  | .vNum _, .vBool _ => isFalse (fun h => Value.noConfusion h)
  | .vNum a, .vNum b =>
      if h : a = b then isTrue (by rw [h])
      else isFalse (by intro hh; injection hh; contradiction)
  | .vNum _, .vStr _ => isFalse (fun h => Value.noConfusion h)
  | .vNum _, .vArr _ => isFalse (fun h => Value.noConfusion h)
  | .vNum _, .vObj _ => isFalse (fun h => Value.noConfusion h)
  | .vStr _, .vNull => isFalse (fun h => Value.noConfusion h)
  | .vStr _, .vBool _ => isFalse (fun h => Value.noConfusion h)
  | .vStr _, .vNum _ => isFalse (fun h => Value.noConfusion h)
  | .vStr a, .vStr b =>
      if h : a = b then isTrue (by rw [h])
      else isFalse (by intro hh; injection hh; contradiction)
  | .vStr _, .vArr _ => isFalse (fun h => Value.noConfusion h)
  | .vStr _, .vObj _ => isFalse (fun h => Value.noConfusion h)
  | .vArr _, .vNull => isFalse (fun h => Value.noConfusion h)
  | .vArr _, .vBool _ => isFalse (fun h => Value.noConfusion h)
  | .vArr _, .vNum _ => isFalse (fun h => Value.noConfusion h)
  | .vArr _, .vStr _ => isFalse (fun h => Value.noConfusion h)
  | .vArr a, .vArr b =>
      match Value.decEqArr a b with
      | isTrue h => isTrue (by rw [h])
      | isFalse h => isFalse (by intro hh; injection hh; contradiction)
  | .vArr _, .vObj _ => isFalse (fun h => Value.noConfusion h)
  | .vObj _, .vNull => isFalse (fun h => Value.noConfusion h)
  | .vObj _, .vBool _ => isFalse (fun h => Value.noConfusion h)
  | .vObj _, .vNum _ => isFalse (fun h => Value.noConfusion h)
  | .vObj _, .vStr _ => isFalse (fun h => Value.noConfusion h)
  | .vObj _, .vArr _ => isFalse (fun h => Value.noConfusion h)
  | .vObj a, .vObj b =>
      match Value.decEqObj a b with
      | isTrue h => isTrue (by rw [h])
      | isFalse h => isFalse (by intro hh; injection hh; contradiction)

/-- Decidable equality on lists of values. -/
def Value.decEqArr : (a b : List Value) → Decidable (a = b)
  | [], [] => isTrue rfl
  | [], _ :: _ => isFalse (fun h => List.noConfusion h)
  | _ :: _, [] => isFalse (fun h => List.noConfusion h)
  | a :: as, b :: bs =>
      match Value.decEq a b, Value.decEqArr as bs with
      | isTrue h1, isTrue h2 => isTrue (by rw [h1, h2])
      | isFalse h1, _ => isFalse (by intro hh; injection hh; contradiction)
      | _, isFalse h2 => isFalse (by intro hh; injection hh; contradiction)

/-- Decidable equality on lists of key-value pairs. -/
def Value.decEqObj : (a b : List (String × Value)) → Decidable (a = b)
  | [], [] => isTrue rfl
  | [], _ :: _ => isFalse (fun h => List.noConfusion h)
  | _ :: _, [] => isFalse (fun h => List.noConfusion h)
  | (k, v) :: as, (k2, v2) :: bs =>
      if hk : k = k2 then
        match Value.decEq v v2, Value.decEqObj as bs with
        | isTrue h1, isTrue h2 => isTrue (by rw [hk, h1, h2])
        | isFalse h1, _ => isFalse (by
            intro hh
            injection hh with hp hrest
            exact h1 (congrArg Prod.snd hp))
        | _, isFalse h2 => isFalse (by intro hh; injection hh; contradiction)
      else
        isFalse (by
          intro hh
          injection hh with hp hrest
          exact hk (congrArg Prod.fst hp))

end

instance : DecidableEq Value := Value.decEq

/-- A decoded message: a JSON object (Python dict, unique keys,
insertion order). -/
abbrev Msg := List (String × Value)

/-- A transformed row: a flat JSON object. -/
abbrev Row := List (String × Value)

/-- Python `isinstance(value, (str, int, float, bool, type(None)))`:
true exactly on non-container values. -/
def isScalarValue : Value → Bool
  | .vObj _ => false
  | .vArr _ => false
  | _ => true

/-- Escape of one character inside a JSON string literal.  Partial
model of Python `json.dumps` escaping: backslash and double quote are
escaped; other escapes (control characters, non-ASCII) are not needed
by any claim, which only ever observe that the encoding is a string. -/
def jsonEscapeChar (c : Char) : String :=
  if c = '"' then "\\\""
  else if c = '\\' then "\\\\"
  else String.singleton c

/-- Escape of a string for a JSON string literal. -/
def jsonEscape (s : String) : String :=
  s.data.foldl (fun acc c => acc ++ jsonEscapeChar c) ""

mutual

/-- Python `json.dumps` with default separators, on a decoded value. -/
def dumps : Value → String
  | .vNull => "null"
  | .vBool true => "true"
  | .vBool false => "false"
  | .vNum n => toString n
  | .vStr s => "\"" ++ jsonEscape s ++ "\""
  | .vArr xs => "[" ++ dumpsArr xs ++ "]"
  | .vObj fs => "\x7b" ++ dumpsObj fs ++ "\x7d"

/-- `json.dumps` of the elements of a JSON array, comma-separated. -/
def dumpsArr : List Value → String
  | [] => ""
  | [x] => dumps x
  | x :: y :: rest => dumps x ++ ", " ++ dumpsArr (y :: rest)

/-- `json.dumps` of the members of a JSON object, comma-separated. -/
def dumpsObj : List (String × Value) → String
  | [] => ""
  | [(k, v)] => "\"" ++ jsonEscape k ++ "\": " ++ dumps v
  | (k, v) :: q :: rest =>
      "\"" ++ jsonEscape k ++ "\": " ++ dumps v ++ ", " ++ dumpsObj (q :: rest)

end

/-- A single quote character (used by Python `repr` of strings). -/
def squote : String := String.singleton (Char.ofNat 39)

mutual

/-- Python `repr` of a decoded value (partial model: string escaping
inside `repr` is not modelled; no claim inspects the text). -/
def pyRepr : Value → String
  | .vNull => "None"
  | .vBool true => "True"
  | .vBool false => "False"
  | .vNum n => toString n
  | .vStr s => squote ++ s ++ squote
  | .vArr xs => "[" ++ pyReprArr xs ++ "]"
  | .vObj fs => "\x7b" ++ pyReprObj fs ++ "\x7d"

/-- Python `repr` of the elements of a list, comma-separated. -/
def pyReprArr : List Value → String
  | [] => ""
  | [x] => pyRepr x
  | x :: y :: rest => pyRepr x ++ ", " ++ pyReprArr (y :: rest)

/-- Python `repr` of the items of a dict, comma-separated. -/
def pyReprObj : List (String × Value) → String
  | [] => ""
  | [(k, v)] => squote ++ k ++ squote ++ ": " ++ pyRepr v
  | (k, v) :: q :: rest =>
      squote ++ k ++ squote ++ ": " ++ pyRepr v ++ ", " ++ pyReprObj (q :: rest)

end

/-- Python `str()` of a decoded value: the raw text for strings,
`repr`-style rendering otherwise. -/
def pyStr : Value → String
  | .vStr s => s
  | v => pyRepr v

/-- Python truthiness of a decoded JSON value. -/
def pyTruthy : Value → Bool
  | .vNull => false
  | .vBool b => b
  | .vNum n => n != 0
  | .vStr s => s != ""
  | .vArr xs => !xs.isEmpty
  | .vObj fs => !fs.isEmpty

/-- Python dict lookup on an association list (unique keys). -/
def msgLookup (m : Msg) (k : String) : Option Value :=
  (m.find? (fun p => p.1 = k)).map (fun p => p.2)

/-- Python dict assignment `d[k] = v`: replace the value at an
existing key, else append the new binding at the end. -/
def dictInsert (d : List (String × Value)) (k : String) (v : Value) :
    List (String × Value) :=
  if d.any (fun p => p.1 = k) then
    d.map (fun p => if p.1 = k then (k, v) else p)
  else d ++ [(k, v)]

/-- The routing fields skipped by the transformer
(`if key in ['Table', 'EntityType', 'TableName']: continue`). -/
def skippedKeys : List String := ["Table", "EntityType", "TableName"]

/-- One iteration of the transformer's inner loop over a nested
object's items (`for nested_key, nested_value in value.items()`). -/
def transformNestedStep (key : String) (out : Row) (p : String × Value) : Row :=
  if isScalarValue p.2 then
    dictInsert out (key ++ "_" ++ p.1) p.2
  else
    dictInsert out (key ++ "_" ++ p.1) (.vStr (dumps p.2))

/-- One iteration of the transformer's outer loop over the message's
items. -/
def transformStep (out : Row) (p : String × Value) : Row :=
  if p.1 ∈ skippedKeys then out
  else if isScalarValue p.2 then dictInsert out p.1 p.2
  else
    match p.2 with
    | .vObj fs => fs.foldl (transformNestedStep p.1) out
    | v => dictInsert out p.1 (.vStr (dumps v))

/-- `transform_message` from src/main.py.  `ts` is the value of
`time.time()` at the moment the transform runs. -/
def transform_message (message : Msg) (ts : Int) : Row :=
  dictInsert (message.foldl transformStep []) "processing_timestamp" (.vNum ts)

/-- Python `str.isalnum` on one character.  Partial model of the
Unicode-aware predicate: exact on ASCII, and on the Latin-1 letters
`É` (U+00C9) and `é` (U+00E9) used in this development; other
non-ASCII characters are mapped to `false`. -/
def pyIsAlnum (c : Char) : Bool :=
  let n := c.toNat
  (48 ≤ n && n ≤ 57) || (65 ≤ n && n ≤ 90) || (97 ≤ n && n ≤ 122) ||
    n == 0xC9 || n == 0xE9

/-- Python `str.lower` on one character.  Partial model: exact on
ASCII and on `É` (U+00C9, lowercased to U+00E9); identity elsewhere. -/
def pyLowerChar (c : Char) : Char :=
  let n := c.toNat
  if 65 ≤ n && n ≤ 90 then Char.ofNat (n + 32)
  else if n == 0xC9 then Char.ofNat 0xE9
  else c

/-- The table-name normalization of `get_table_from_message`:
`''.join(c if c.isalnum() else '_' for c in s).lower()`. -/
def cleanTableName (s : String) : String :=
  String.mk (((s.data.map (fun c => if pyIsAlnum c then c else '_')).map pyLowerChar))

/-- The check `field in message and message[field]`: the value at
`field` when it is present and truthy, else `none`. -/
def truthyAt (m : Msg) (f : String) : Option Value :=
  match msgLookup m f with
  | some v => if pyTruthy v then some v else none
  | none => none

/-- The routing loop of `get_table_from_message`: the first of
`EntityType`, `Table`, `TableName` that is present with a truthy
value. -/
def firstTruthyRouting (m : Msg) : Option Value :=
  (truthyAt m "EntityType").orElse fun _ =>
    (truthyAt m "Table").orElse fun _ =>
      truthyAt m "TableName"

/-- `get_table_from_message` from src/main.py. -/
def get_table_from_message (m : Msg) : String :=
  match firstTruthyRouting m with
  | some v => cleanTableName (pyStr v)
  | none => "default_table"

/-- An observable BigQuery-client call made by `write_to_bigquery`,
carrying the full table reference (`f"{BQ_DATASET}.{table_name}"`)
the call was made with. -/
inductive WEvent where
  | getTable : String → WEvent
  | bulkLoad : String → List Row → WEvent
  | streamInsert : String → List Row → WEvent
deriving DecidableEq, Repr

/-- The error string produced by the outer `except` handler of
`write_to_bigquery` (the traceback appendix is not modelled). -/
def bqExcMsg (e : String) : String := "Error writing to BigQuery: " ++ e

/-- `write_to_bigquery` from src/main.py, over oracles for the three
BigQuery calls it makes:
* `clientPresent`: whether the module-level client initialized;
* `getTableOutcome`: `none` when `bq_client.get_table` returns
  (table exists), `some e` when it raises exception text `e`
  (not-found or any transport/auth failure — the code cannot tell
  them apart);
* `loadOutcome`: `none` when the bulk-load job completes, `some e`
  when it raises `e`;
* `streamOutcome`: `.error e` when `insert_rows_json` raises `e`,
  `.ok errs` when it returns the per-row error list `errs`.
Returns the error list the Python function returns, paired with the
trace of client calls it performed. -/
def write_to_bigquery (dataset : String) (clientPresent : Bool)
    (getTableOutcome : Option String) (loadOutcome : Option String)
    (streamOutcome : Except String (List String))
    (table_name : String) (rows : List Row) : List String × List WEvent :=
  if rows = [] then ([], [])
  else if !clientPresent then (["BigQuery client not initialized"], [])
  else
    let table_ref := dataset ++ "." ++ table_name
    let table_exists := getTableOutcome.isNone
    if table_exists = false then
      match loadOutcome with
      | none => ([], [.getTable table_ref, .bulkLoad table_ref rows])
      | some e => ([bqExcMsg e], [.getTable table_ref, .bulkLoad table_ref rows])
    else
      match streamOutcome with
      | .error e => ([bqExcMsg e], [.getTable table_ref, .streamInsert table_ref rows])
      | .ok errs =>
          if errs = [] then ([], [.getTable table_ref, .streamInsert table_ref rows])
          else (errs.map (fun e => "Error: " ++ e),
                [.getTable table_ref, .streamInsert table_ref rows])

/-- An observable action of the pipeline driver: a positive ack, a
negative ack (with its requeue flag), or a call to the loader
(`write_to_bigquery`) with a table name and batch. -/
inductive Event where
  | ack : Nat → Event
  | nack : Nat → Bool → Event
  | flush : String → List Row → Event
deriving DecidableEq, Repr

/-- The driver's mutable state: the per-table buffer (`message_buffer`,
a dict in insertion order), the `results` counters, and the trace of
observable actions so far. -/
structure DriverState where
  buffer : List (String × List Row)
  processed : Nat
  tables : List String
  errors : List String
  events : List Event
deriving DecidableEq, Repr

/-- The driver's state at the start of an invocation. -/
def initState : DriverState := ⟨[], 0, [], [], []⟩

/-- Python set insertion (`results['tables_updated'].add`), modelled
as an insertion-ordered duplicate-free list. -/
def addTable (ts : List String) (t : String) : List String :=
  if t ∈ ts then ts else ts ++ [t]

/-- `message_buffer[t].append(r)` (creating `message_buffer[t] = []`
first when absent): updates the first binding of `t`, or appends a
new binding. -/
def bufAppend : List (String × List Row) → String → Row → List (String × List Row)
  | [], t, r => [(t, [r])]
  | p :: rest, t, r =>
      if p.1 = t then (p.1, p.2 ++ [r]) :: rest
      else p :: bufAppend rest t r

/-- `message_buffer[t] = v`: updates the first binding of `t`, or
appends a new binding. -/
def bufSet : List (String × List Row) → String → List Row → List (String × List Row)
  | [], t, v => [(t, v)]
  | p :: rest, t, v =>
      if p.1 = t then (p.1, v) :: rest
      else p :: bufSet rest t v

/-- `message_buffer[t]` (with `[]` for an absent key). -/
def bufGet : List (String × List Row) → String → List Row
  | [], _ => []
  | p :: rest, t => if p.1 = t then p.2 else bufGet rest t

/-- The error string recorded when processing one message raises
(here: only JSON decode failure is modelled; the traceback appendix
is dropped). -/
def decodeErrMsg (e : String) : String := "Error processing message: " ++ e

/-- Processing of one fetched message by the driver loop
(src/main.py lines 175-214).  `i` is the message's delivery tag,
`payload` the result of `json.loads` on its body (`.error e` when
decoding raised `e`), `ts` the `time.time()` value of its transform,
and `loader` abstracts the error list returned by
`write_to_bigquery` for a given table and batch. -/
def stepMessage (loader : String → List Row → List String) (st : DriverState)
    (i : Nat) (payload : Except String Msg) (ts : Int) : DriverState :=
  match payload with
  | .error e =>
      { st with
        errors := st.errors ++ [decodeErrMsg e],
        events := st.events ++ [Event.nack i true] }
  | .ok m =>
      let table_name := get_table_from_message m
      let transformed := transform_message m ts
      let buf := bufAppend st.buffer table_name transformed
      let cur := bufGet buf table_name
      if 100 ≤ cur.length then
        { buffer := bufSet buf table_name [],
          processed := st.processed + cur.length,
          tables := addTable st.tables table_name,
          errors := st.errors ++ loader table_name cur,
          events := st.events ++ [Event.flush table_name cur, Event.ack i] }
      else
        { st with buffer := buf, events := st.events ++ [Event.ack i] }

/-- The driver's fetch loop (`for i in range(max_messages)` with a
break on an empty queue): the queue is the list of remaining
payloads, the fuel is the remaining iteration budget. -/
def runLoop (loader : String → List Row → List String) :
    Nat → Nat → List (Except String Msg × Int) → DriverState → DriverState
  | 0, _, _, st => st
  | _ + 1, _, [], st => st
  | fuel + 1, i, p :: rest, st =>
      runLoop loader fuel (i + 1) rest (stepMessage loader st i p.1 p.2)

/-- One iteration of the post-loop drain (`for table_name, rows in
message_buffer.items(): if rows: ...`): flush a non-empty per-table
buffer through the loader and update the counters. -/
def drainStep (loader : String → List Row → List String)
    (s : DriverState) (p : String × List Row) : DriverState :=
  if p.2 = [] then s
  else
    { s with
      errors := s.errors ++ loader p.1 p.2,
      tables := addTable s.tables p.1,
      processed := s.processed + p.2.length,
      events := s.events ++ [Event.flush p.1 p.2] }

/-- The post-loop drain: fold `drainStep` over the buffer snapshot. -/
def drainBuffers (loader : String → List Row → List String)
    (st : DriverState) : DriverState :=
  st.buffer.foldl (drainStep loader) st

/-- `process_rabbitmq_messages` from src/main.py (the message loop
and final drain; connection setup is assumed to succeed and the
queue is given as the list of payloads it will deliver). -/
def process_rabbitmq_messages (loader : String → List Row → List String)
    (msgs : List (Except String Msg × Int)) (max_messages : Nat) : DriverState :=
  drainBuffers loader (runLoop loader max_messages 0 msgs initState)

/-- Total number of buffered rows across all tables. -/
def bufTotal (b : List (String × List Row)) : Nat :=
  (b.map (fun p => p.2.length)).sum

theorem bufGet_bufAppend_self (b : List (String × List Row)) (t : String) (r : Row) :
    bufGet (bufAppend b t r) t = bufGet b t ++ [r] := by
  induction b with
  | nil => simp [bufAppend, bufGet]
  | cons p rest ih =>
      by_cases h : p.1 = t
      · simp [bufAppend, bufGet, h]
      · simp [bufAppend, bufGet, h, ih]

theorem bufGet_bufAppend_ne (b : List (String × List Row)) (t t' : String) (r : Row)
    (h : t' ≠ t) : bufGet (bufAppend b t r) t' = bufGet b t' := by
  induction b with
  | nil => simp [bufAppend, bufGet, Ne.symm h]
  | cons p rest ih =>
      by_cases hp : p.1 = t
      · subst hp
        simp [bufAppend, bufGet, Ne.symm h]
      · simp only [bufAppend, if_neg hp, bufGet, ih]

theorem bufGet_bufSet_ne (b : List (String × List Row)) (t t' : String) (v : List Row)
    (h : t' ≠ t) : bufGet (bufSet b t v) t' = bufGet b t' := by
  induction b with
  | nil => simp [bufSet, bufGet, Ne.symm h]
  | cons p rest ih =>
      by_cases hp : p.1 = t
      · subst hp
        simp [bufSet, bufGet, Ne.symm h]
      · simp only [bufSet, if_neg hp, bufGet, ih]

theorem bufTotal_bufAppend (b : List (String × List Row)) (t : String) (r : Row) :
    bufTotal (bufAppend b t r) = bufTotal b + 1 := by
  induction b with
  | nil => simp [bufAppend, bufTotal]
  | cons p rest ih =>
      by_cases h : p.1 = t
      · simp [bufAppend, bufTotal, h]; omega
      · simp only [bufAppend, if_neg h, bufTotal, List.map_cons, List.sum_cons] at ih ⊢
        omega

theorem bufTotal_bufSet_nil (b : List (String × List Row)) (t : String) :
    bufTotal (bufSet b t []) + (bufGet b t).length = bufTotal b := by
  induction b with
  | nil => simp [bufSet, bufGet, bufTotal]
  | cons p rest ih =>
      by_cases h : p.1 = t
      · simp [bufSet, bufGet, bufTotal, h]
        omega
      · simp only [bufSet, if_neg h, bufGet, bufTotal, List.map_cons, List.sum_cons] at ih ⊢
        omega

theorem mem_addTable (ts : List String) (t t' : String) :
    t' ∈ addTable ts t ↔ t' ∈ ts ∨ t' = t := by
  by_cases h : t ∈ ts
  · simp only [addTable, if_pos h]
    constructor
    · exact Or.inl
    · rintro (hh | rfl) <;> [exact hh; exact h]
  · simp [addTable, if_neg h]

/-- **C10.** For every table id (and any client/oracle situation),
calling the Loader with an empty row batch returns an empty error
list and performs no BigQuery call at all — including when the
warehouse client is unavailable, because `if not rows` precedes
`if not bq_client` in `write_to_bigquery`. -/
theorem write_to_bigquery_empty_noop (dataset : String) (clientPresent : Bool)
    (gto lo : Option String) (so : Except String (List String)) (t : String) :
    write_to_bigquery dataset clientPresent gto lo so t [] = ([], []) := by
  simp [write_to_bigquery]

/-- **C3.** For a non-empty batch: when the existence check raises
(the table does not yet exist) and the bulk-load job completes,
`write_to_bigquery` performs exactly the existence check followed by
one schema-autodetecting bulk load of the rows — no stream insert —
and returns no errors; when the table exists (the existence check
returns), only the stream-insert path runs, whatever its outcome. -/
theorem write_to_bigquery_autoprovision (dataset t : String) (rows : List Row)
    (h : rows ≠ []) (notFound : String) (lo : Option String)
    (so so2 : Except String (List String)) :
    (write_to_bigquery dataset true (some notFound) none so t rows =
       ([], [WEvent.getTable (dataset ++ "." ++ t),
             WEvent.bulkLoad (dataset ++ "." ++ t) rows]))
    ∧ ((write_to_bigquery dataset true none lo so2 t rows).2 =
       [WEvent.getTable (dataset ++ "." ++ t),
        WEvent.streamInsert (dataset ++ "." ++ t) rows]) := by
  constructor
  · simp [write_to_bigquery, h]
  · cases so2 with
    | error e => simp [write_to_bigquery, h]
    | ok errs =>
        by_cases he : errs = [] <;> simp [write_to_bigquery, h, he]

/-- Witness for `write_to_bigquery_autoprovision` at a concrete
one-row batch. -/
theorem write_to_bigquery_autoprovision_witness :
    ([[("id", Value.vNum 1)]] : List Row) ≠ [] ∧
    ((write_to_bigquery "ds" true (some "404 table not found") none
        (Except.ok []) "orders" [[("id", Value.vNum 1)]] =
       ([], [WEvent.getTable "ds.orders",
             WEvent.bulkLoad "ds.orders" [[("id", Value.vNum 1)]]]))
     ∧ ((write_to_bigquery "ds" true none none (Except.ok [])
           "orders" [[("id", Value.vNum 1)]]).2 =
        [WEvent.getTable "ds.orders",
         WEvent.streamInsert "ds.orders" [[("id", Value.vNum 1)]]])) :=
  ⟨by decide,
   write_to_bigquery_autoprovision "ds" "orders" [[("id", Value.vNum 1)]]
     (by decide) "404 table not found" none (Except.ok []) (Except.ok [])⟩

/-- **C7, counterexample.** A transport exception raised inside the
existence check (`bq_client.get_table`) is swallowed by the inner
`except` — the code treats it as "table absent" and proceeds to bulk
load — so with a succeeding load the returned error list is empty,
not a single error description as the claim requires. -/
theorem write_to_bigquery_existence_exception_cex :
    write_to_bigquery "ds" true (some "503 transport failure") none
        (Except.ok []) "t" [[("id", Value.vNum 1)]] =
      ([], [WEvent.getTable "ds.t",
            WEvent.bulkLoad "ds.t" [[("id", Value.vNum 1)]]]) := by
  decide

/-- **C7, amended.** An exception raised during the bulk load or the
stream insert is caught and converted into exactly one error
description in the returned list; an exception during the existence
check is caught but treated as table-absence (routing to the
bulk-load path) without contributing an error description.  The
Loader is a total function of its call outcomes, so no modelled
exception propagates to the drive loop. -/
theorem write_to_bigquery_exceptions_caught (dataset t : String) (rows : List Row)
    (h : rows ≠ []) (e notFound : String) (lo : Option String)
    (so : Except String (List String)) :
    ((write_to_bigquery dataset true (some notFound) (some e) so t rows).1 =
       [bqExcMsg e])
    ∧ ((write_to_bigquery dataset true none lo (Except.error e) t rows).1 =
       [bqExcMsg e])
    ∧ ((write_to_bigquery dataset true (some notFound) none so t rows).1 = []) := by
  refine ⟨?_, ?_, ?_⟩ <;> simp [write_to_bigquery, h]

/-- Witness for `write_to_bigquery_exceptions_caught` at a concrete
one-row batch. -/
theorem write_to_bigquery_exceptions_caught_witness :
    ([[("id", Value.vNum 1)]] : List Row) ≠ [] ∧
    (((write_to_bigquery "ds" true (some "404") (some "auth failure")
         (Except.ok []) "t" [[("id", Value.vNum 1)]]).1 =
        [bqExcMsg "auth failure"])
     ∧ ((write_to_bigquery "ds" true none none
           (Except.error "auth failure") "t" [[("id", Value.vNum 1)]]).1 =
        [bqExcMsg "auth failure"])
     ∧ ((write_to_bigquery "ds" true (some "404") none (Except.ok [])
           "t" [[("id", Value.vNum 1)]]).1 = [])) :=
  ⟨by decide,
   write_to_bigquery_exceptions_caught "ds" "t" [[("id", Value.vNum 1)]]
     (by decide) "auth failure" "404" none (Except.ok [])⟩

/-- **C6.** A payload whose decode raises `e` makes the driver record
exactly one error, emit a negative acknowledgment with `requeue=True`,
and leave the buffer, the processed counter and the table set
untouched; the loop then continues with the remaining messages
unchanged — a single malformed message never aborts it. -/
theorem stepMessage_decode_failure (loader : String → List Row → List String)
    (st : DriverState) (i : Nat) (e : String) (ts : Int) (f : Nat)
    (rest : List (Except String Msg × Int)) :
    stepMessage loader st i (.error e) ts =
      { st with
        errors := st.errors ++ [decodeErrMsg e],
        events := st.events ++ [Event.nack i true] }
    ∧ (stepMessage loader st i (.error e) ts).buffer = st.buffer
    ∧ (stepMessage loader st i (.error e) ts).processed = st.processed
    ∧ (stepMessage loader st i (.error e) ts).tables = st.tables
    ∧ runLoop loader (f + 1) i ((Except.error e, ts) :: rest) st =
        runLoop loader f (i + 1) rest (stepMessage loader st i (.error e) ts) :=
  ⟨rfl, rfl, rfl, rfl, rfl⟩

/-- **C1, amended.** Processing one successfully decoded message
emits, in this order: the Loader flush of the batch when the append
brings that table's buffer to the threshold (and nothing otherwise),
then the positive acknowledgment of the message.  Hence the first
`threshold - 1` contributors to a batch are acked in their own step,
before the batch's flush — but the acknowledgment of the message
that triggers the flush follows the synchronous Loader call, not
the reverse. -/
theorem stepMessage_ack_follows_flush (loader : String → List Row → List String)
    (st : DriverState) (i : Nat) (m : Msg) (ts : Int) :
    (stepMessage loader st i (.ok m) ts).events =
      st.events
        ++ (if 100 ≤ (bufGet st.buffer (get_table_from_message m)).length + 1
            then [Event.flush (get_table_from_message m)
                    (bufGet st.buffer (get_table_from_message m)
                      ++ [transform_message m ts])]
            else [])
        ++ [Event.ack i] := by
  simp only [stepMessage, bufGet_bufAppend_self, List.length_append,
    List.length_cons, List.length_nil]
  by_cases h : 100 ≤ (bufGet st.buffer (get_table_from_message m)).length + 1
  · simp [h]
  · simp [h]

/-- A concrete decodable message routed to table `order`. -/
def orderMsg : Msg := [("EntityType", Value.vStr "Order"), ("id", Value.vNum 1)]

/-- A loader oracle that always succeeds (returns no errors). -/
def loaderOk : String → List Row → List String := fun _ _ => []

/-- A queue of 100 copies of `orderMsg`, all decoding successfully. -/
def orderQueue : List (Except String Msg × Int) :=
  List.replicate 100 (Except.ok orderMsg, 0)

/-- The driver run over `orderQueue`. -/
def orderRun : DriverState := process_rabbitmq_messages loaderOk orderQueue 100

/-- The row `transform_message` produces from `orderMsg`. -/
def orderRow : Row := transform_message orderMsg 0

set_option maxRecDepth 20000 in
/-- **C1, counterexample.** In the concrete run of 100 messages that
all route to table `order`, the full event trace is: acks of
messages 0..98, then the Loader flush of the 100-row batch, then the
ack of message 99.  Message 99's row is in that batch, so the
acknowledgment of the message that brings the buffer to the flush
threshold does NOT precede the Loader call for its batch — the claim
fails for message 99. -/
theorem ack_before_flush_cex :
    orderRun.events =
      (List.range 99).map Event.ack
        ++ [Event.flush "order" (List.replicate 100 orderRow), Event.ack 99]
    ∧ orderRow ∈ List.replicate 100 orderRow := by
  constructor
  · rfl
  · simp [List.mem_replicate]

theorem mem_of_mem_dictInsert (d : List (String × Value)) (k : String) (v : Value)
    (p : String × Value) (hp : p ∈ dictInsert d k v) : p ∈ d ∨ p = (k, v) := by
  unfold dictInsert at hp
  split at hp
  · obtain ⟨q, hq, hfq⟩ := List.mem_map.mp hp
    by_cases hqk : q.1 = k
    · right
      rw [if_pos hqk] at hfq
      exact hfq.symm
    · left
      rw [if_neg hqk] at hfq
      exact hfq ▸ hq
  · rcases List.mem_append.mp hp with h | h
    · exact Or.inl h
    · right
      simpa using h

theorem mem_dictInsert_self (d : List (String × Value)) (k : String) (v : Value) :
    (k, v) ∈ dictInsert d k v := by
  unfold dictInsert
  split
  case isTrue h =>
    simp only [List.any_eq_true, decide_eq_true_eq] at h
    obtain ⟨q, hq, hqk⟩ := h
    exact List.mem_map.mpr ⟨q, hq, by rw [if_pos hqk]⟩
  case isFalse h =>
    exact List.mem_append.mpr (Or.inr (by simp))

theorem allScalar_dictInsert (d : Row) (k : String) (v : Value)
    (hd : ∀ p ∈ d, isScalarValue p.2 = true) (hv : isScalarValue v = true) :
    ∀ p ∈ dictInsert d k v, isScalarValue p.2 = true := by
  intro p hp
  rcases mem_of_mem_dictInsert d k v p hp with h | h
  · exact hd p h
  · rw [h]
    exact hv

theorem allScalar_nested_fold (key : String) (fs : List (String × Value)) (acc : Row)
    (hacc : ∀ p ∈ acc, isScalarValue p.2 = true) :
    ∀ p ∈ fs.foldl (transformNestedStep key) acc, isScalarValue p.2 = true := by
  induction fs generalizing acc with
  | nil => exact hacc
  | cons x xs ih =>
      refine ih (transformNestedStep key acc x) ?_
      unfold transformNestedStep
      split
      case isTrue hx => exact allScalar_dictInsert acc _ _ hacc hx
      case isFalse hx => exact allScalar_dictInsert acc _ _ hacc rfl

theorem allScalar_transformStep (out : Row) (x : String × Value)
    (h : ∀ p ∈ out, isScalarValue p.2 = true) :
    ∀ p ∈ transformStep out x, isScalarValue p.2 = true := by
  unfold transformStep
  split
  · exact h
  · split
    case isTrue hx => exact allScalar_dictInsert out _ _ h hx
    case isFalse hx =>
      split
      · exact allScalar_nested_fold _ _ out h
      · exact allScalar_dictInsert out _ _ h rfl

theorem allScalar_outer_fold (l : Msg) (acc : Row)
    (hacc : ∀ p ∈ acc, isScalarValue p.2 = true) :
    ∀ p ∈ l.foldl transformStep acc, isScalarValue p.2 = true := by
  induction l generalizing acc with
  | nil => exact hacc
  | cons x xs ih => exact ih (transformStep acc x) (allScalar_transformStep acc x hacc)

/-- **C4.** For every input message, every value of the Row produced
by `transform_message` is a scalar (string, number, boolean) or null
— no nested mapping or sequence survives as a value — and the Row
always contains the `processing_timestamp` column holding the
(numeric) transform time. -/
theorem transform_message_values_scalar (message : Msg) (ts : Int) :
    (∀ p ∈ transform_message message ts, isScalarValue p.2 = true)
    ∧ ("processing_timestamp", Value.vNum ts) ∈ transform_message message ts := by
  constructor
  · exact allScalar_dictInsert _ _ _
      (allScalar_outer_fold message [] (by intro p hp; cases hp)) rfl
  · exact mem_dictInsert_self _ _ _

theorem toNat_ofNat_of_lt (n : Nat) (h : n < 55296) : (Char.ofNat n).toNat = n := by
  have hv : n.isValidChar := Or.inl h
  simp [Char.ofNat, hv, Char.ofNatAux, Char.toNat, UInt32.toNat, BitVec.toNat_ofNatLt]

/-- The character set `[a-z0-9_]` the spec requires of table names. -/
def allowedTableChar (c : Char) : Bool :=
  let n := c.toNat
  (97 ≤ n && n ≤ 122) || (48 ≤ n && n ≤ 57) || n == 95

theorem allowed_of_ascii_alnum (c : Char) (h : c.toNat < 128)
    (hA : pyIsAlnum c = true) : allowedTableChar (pyLowerChar c) = true := by
  simp only [pyIsAlnum, Bool.or_eq_true, Bool.and_eq_true, decide_eq_true_eq,
    beq_iff_eq] at hA
  unfold pyLowerChar
  by_cases hu : 65 ≤ c.toNat ∧ c.toNat ≤ 90
  · rw [if_pos (by simp only [Bool.and_eq_true, decide_eq_true_eq]; exact hu)]
    unfold allowedTableChar
    rw [toNat_ofNat_of_lt _ (by omega)]
    simp only [Bool.or_eq_true, Bool.and_eq_true, decide_eq_true_eq, beq_iff_eq]
    omega
  · rw [if_neg (by simp only [Bool.and_eq_true, decide_eq_true_eq]; exact hu)]
    rw [if_neg (by simp only [beq_iff_eq]; omega)]
    unfold allowedTableChar
    simp only [Bool.or_eq_true, Bool.and_eq_true, decide_eq_true_eq, beq_iff_eq]
    omega

theorem allowed_clean_char (c : Char) (h : c.toNat < 128) :
    allowedTableChar (pyLowerChar (if pyIsAlnum c then c else '_')) = true := by
  by_cases hA : pyIsAlnum c = true
  · rw [if_pos hA]
    exact allowed_of_ascii_alnum c h hA
  · rw [if_neg hA]
    decide

theorem cleanTableName_ascii (s : String) (hs : ∀ c ∈ s.data, c.toNat < 128) :
    ∀ c ∈ (cleanTableName s).data, allowedTableChar c = true := by
  intro c hc
  unfold cleanTableName at hc
  obtain ⟨c1, hc1, rfl⟩ := List.mem_map.mp hc
  obtain ⟨c0, hc0, rfl⟩ := List.mem_map.mp hc1
  exact allowed_clean_char c0 (hs c0 hc0)

/-- **C5, amended.** `get_table_from_message` is deterministic (it is
a pure function of the message), and whenever the routing value that
wins is rendered by `str()` into an all-ASCII string, every character
of the output lies in `[a-z0-9_]`.  (For non-ASCII input the charset
guarantee fails — see the counterexample — because Python's
`isalnum` admits Unicode alphanumerics, which `lower` does not map
into ASCII.) -/
theorem get_table_deterministic_ascii_charset (m : Msg) :
    get_table_from_message m = get_table_from_message m
    ∧ (∀ v, firstTruthyRouting m = some v →
        (∀ c ∈ (pyStr v).data, c.toNat < 128) →
        ∀ c ∈ (get_table_from_message m).data, allowedTableChar c = true) := by
  refine ⟨rfl, ?_⟩
  intro v hv hascii c hc
  unfold get_table_from_message at hc
  rw [hv] at hc
  exact cleanTableName_ascii (pyStr v) hascii c hc

/-- Witness for `get_table_deterministic_ascii_charset` on the
concrete message `\x7b"EntityType": "Orders-2"\x7d`. -/
theorem get_table_deterministic_ascii_charset_witness :
    firstTruthyRouting [("EntityType", Value.vStr "Orders-2")] =
      some (Value.vStr "Orders-2")
    ∧ (∀ c ∈ (pyStr (Value.vStr "Orders-2")).data, c.toNat < 128)
    ∧ ∀ c ∈ (get_table_from_message [("EntityType", Value.vStr "Orders-2")]).data,
        allowedTableChar c = true :=
  ⟨by decide, by decide,
   (get_table_deterministic_ascii_charset [("EntityType", Value.vStr "Orders-2")]).2
     (Value.vStr "Orders-2") (by decide) (by decide)⟩

/-- **C5, counterexample.** On the message
`\x7b"EntityType": "Café"\x7d` the router returns `"café"`: Python's
Unicode-aware `isalnum` keeps `é` and `lower` leaves it in place, so
the output contains a character outside `[a-z0-9_]` and the claimed
charset guarantee fails. -/
theorem get_table_charset_cex :
    get_table_from_message [("EntityType", Value.vStr "Café")] = "café"
    ∧ ¬ (∀ c ∈ ("café" : String).data, allowedTableChar c = true) := by
  constructor
  · rfl
  · decide

/-- **C8.** The router inspects `EntityType`, `Table`, `TableName` in
that fixed order; the first field present with a truthy (non-empty)
value determines the table name (normalized), and when none is
populated the fixed default `"default_table"` is returned.
("Non-empty" is formalized as Python truthiness, the code's
`if field in message and message[field]` test.) -/
theorem get_table_priority_order :
    (∀ (m : Msg) (v : Value), truthyAt m "EntityType" = some v →
        get_table_from_message m = cleanTableName (pyStr v))
    ∧ (∀ (m : Msg) (v : Value), truthyAt m "EntityType" = none →
        truthyAt m "Table" = some v →
        get_table_from_message m = cleanTableName (pyStr v))
    ∧ (∀ (m : Msg) (v : Value), truthyAt m "EntityType" = none →
        truthyAt m "Table" = none → truthyAt m "TableName" = some v →
        get_table_from_message m = cleanTableName (pyStr v))
    ∧ (∀ (m : Msg), truthyAt m "EntityType" = none → truthyAt m "Table" = none →
        truthyAt m "TableName" = none →
        get_table_from_message m = "default_table") := by
  refine ⟨?_, ?_, ?_, ?_⟩
  · intro m v h1
    unfold get_table_from_message firstTruthyRouting
    rw [h1]
    rfl
  · intro m v h1 h2
    unfold get_table_from_message firstTruthyRouting
    rw [h1, h2]
    rfl
  · intro m v h1 h2 h3
    unfold get_table_from_message firstTruthyRouting
    rw [h1, h2, h3]
    rfl
  · intro m h1 h2 h3
    unfold get_table_from_message firstTruthyRouting
    rw [h1, h2, h3]
    rfl

/-- Witness for `get_table_priority_order`: all four branches at
concrete messages — `EntityType` wins, a falsy `EntityType` falls
through to `Table`, then `TableName`, then the default. -/
theorem get_table_priority_order_witness :
    (truthyAt [("EntityType", Value.vStr "Order")] "EntityType" =
        some (Value.vStr "Order")
      ∧ get_table_from_message [("EntityType", Value.vStr "Order")] =
          cleanTableName (pyStr (Value.vStr "Order")))
    ∧ (truthyAt [("EntityType", Value.vStr ""), ("Table", Value.vStr "Refund")]
          "EntityType" = none
      ∧ get_table_from_message
          [("EntityType", Value.vStr ""), ("Table", Value.vStr "Refund")] =
          cleanTableName (pyStr (Value.vStr "Refund")))
    ∧ (truthyAt [("TableName", Value.vStr "X9")] "TableName" =
        some (Value.vStr "X9")
      ∧ get_table_from_message [("TableName", Value.vStr "X9")] =
          cleanTableName (pyStr (Value.vStr "X9")))
    ∧ get_table_from_message [("id", Value.vNum 5)] = "default_table" :=
  ⟨⟨by decide,
    get_table_priority_order.1 [("EntityType", Value.vStr "Order")]
      (Value.vStr "Order") (by decide)⟩,
   ⟨by decide,
    get_table_priority_order.2.1
      [("EntityType", Value.vStr ""), ("Table", Value.vStr "Refund")]
      (Value.vStr "Refund") (by decide) (by decide)⟩,
   ⟨by decide,
    get_table_priority_order.2.2.1 [("TableName", Value.vStr "X9")]
      (Value.vStr "X9") (by decide) (by decide) (by decide)⟩,
   get_table_priority_order.2.2.2 [("id", Value.vNum 5)]
     (by decide) (by decide) (by decide)⟩

/-- Whether a payload decoded successfully. -/
def isOkPayload : Except String Msg → Bool
  | .ok _ => true
  | .error _ => false

/-- Number of successfully decoded payloads in a queue prefix. -/
def decodeOkCount (msgs : List (Except String Msg × Int)) : Nat :=
  msgs.countP (fun p => isOkPayload p.1)

/-- The buffer has a (first-occurrence-or-later) non-empty entry for
table `t`. -/
def hasRows (b : List (String × List Row)) (t : String) : Prop :=
  ∃ p ∈ b, p.1 = t ∧ p.2 ≠ []

/-- A table is "touched" by a driver state: already in the updated
set, or still holding buffered rows. -/
def touches (st : DriverState) (t : String) : Prop :=
  t ∈ st.tables ∨ hasRows st.buffer t

theorem hasRows_bufAppend_self (b : List (String × List Row)) (t : String) (r : Row) :
    hasRows (bufAppend b t r) t := by
  induction b with
  | nil => exact ⟨(t, [r]), by simp [bufAppend], rfl, by simp⟩
  | cons p rest ih =>
      by_cases h : p.1 = t
      · exact ⟨(p.1, p.2 ++ [r]), by simp [bufAppend, h], h, by simp⟩
      · obtain ⟨q, hq, hq1, hq2⟩ := ih
        exact ⟨q, by simp [bufAppend, h, hq], hq1, hq2⟩

theorem hasRows_bufAppend_ne (b : List (String × List Row)) (t t' : String) (r : Row)
    (h : t' ≠ t) : hasRows (bufAppend b t r) t' ↔ hasRows b t' := by
  induction b with
  | nil =>
      simp [bufAppend, hasRows, Ne.symm h]
  | cons p rest ih =>
      by_cases hp : p.1 = t
      · subst hp
        constructor
        · rintro ⟨q, hq, hq1, hq2⟩
          rcases (by simpa [bufAppend] using hq : q = (p.1, p.2 ++ [r]) ∨ q ∈ rest) with rfl | hmem
          · exact absurd hq1 (Ne.symm h)
          · exact ⟨q, by simp [hmem], hq1, hq2⟩
        · rintro ⟨q, hq, hq1, hq2⟩
          rcases (by simpa using hq : q = (p.1, p.2) ∨ q ∈ rest) with rfl | hmem
          · exact absurd hq1 (Ne.symm h)
          · exact ⟨q, by simp [bufAppend, hmem], hq1, hq2⟩
      · constructor
        · rintro ⟨q, hq, hq1, hq2⟩
          rcases (by simpa [bufAppend, hp] using hq : q = p ∨ q ∈ bufAppend rest t r) with rfl | hmem
          · exact ⟨q, by simp, hq1, hq2⟩
          · obtain ⟨q2, hq2m, hq21, hq22⟩ := (ih).mp ⟨q, hmem, hq1, hq2⟩
            exact ⟨q2, by simp [hq2m], hq21, hq22⟩
        · rintro ⟨q, hq, hq1, hq2⟩
          rcases (by simpa using hq : q = p ∨ q ∈ rest) with rfl | hmem
          · exact ⟨q, by simp [bufAppend, hp], hq1, hq2⟩
          · obtain ⟨q2, hq2m, hq21, hq22⟩ := (ih).mpr ⟨q, hmem, hq1, hq2⟩
            exact ⟨q2, by simp [bufAppend, hp, hq2m], hq21, hq22⟩

theorem hasRows_bufSet_ne (b : List (String × List Row)) (t t' : String) (v : List Row)
    (h : t' ≠ t) : hasRows (bufSet b t v) t' ↔ hasRows b t' := by
  induction b with
  | nil =>
      simp [bufSet, hasRows, Ne.symm h]
  | cons p rest ih =>
      by_cases hp : p.1 = t
      · subst hp
        constructor
        · rintro ⟨q, hq, hq1, hq2⟩
          rcases (by simpa [bufSet] using hq : q = (p.1, v) ∨ q ∈ rest) with rfl | hmem
          · exact absurd hq1 (Ne.symm h)
          · exact ⟨q, by simp [hmem], hq1, hq2⟩
        · rintro ⟨q, hq, hq1, hq2⟩
          rcases (by simpa using hq : q = (p.1, p.2) ∨ q ∈ rest) with rfl | hmem
          · exact absurd hq1 (Ne.symm h)
          · exact ⟨q, by simp [bufSet, hmem], hq1, hq2⟩
      · constructor
        · rintro ⟨q, hq, hq1, hq2⟩
          rcases (by simpa [bufSet, hp] using hq : q = p ∨ q ∈ bufSet rest t v) with rfl | hmem
          · exact ⟨q, by simp, hq1, hq2⟩
          · obtain ⟨q2, hq2m, hq21, hq22⟩ := (ih).mp ⟨q, hmem, hq1, hq2⟩
            exact ⟨q2, by simp [hq2m], hq21, hq22⟩
        · rintro ⟨q, hq, hq1, hq2⟩
          rcases (by simpa using hq : q = p ∨ q ∈ rest) with rfl | hmem
          · exact ⟨q, by simp [bufSet, hp], hq1, hq2⟩
          · obtain ⟨q2, hq2m, hq21, hq22⟩ := (ih).mpr ⟨q, hmem, hq1, hq2⟩
            exact ⟨q2, by simp [bufSet, hp, hq2m], hq21, hq22⟩

theorem stepMessage_processed_bufTotal (loader : String → List Row → List String)
    (st : DriverState) (i : Nat) (payload : Except String Msg) (ts : Int) :
    (stepMessage loader st i payload ts).processed
        + bufTotal (stepMessage loader st i payload ts).buffer
      = st.processed + bufTotal st.buffer + (if isOkPayload payload then 1 else 0) := by
  cases payload with
  | error e => simp [stepMessage, isOkPayload]
  | ok m =>
      simp only [stepMessage, isOkPayload, if_pos]
      set t0 := get_table_from_message m with ht0
      set row := transform_message m ts with hrow
      have happ := bufTotal_bufAppend st.buffer t0 row
      have hset := bufTotal_bufSet_nil (bufAppend st.buffer t0 row) t0
      split
      · simp only []
        omega
      · simp only []
        omega

theorem stepMessage_touches (loader : String → List Row → List String)
    (st : DriverState) (i : Nat) (payload : Except String Msg) (ts : Int) (t' : String) :
    touches (stepMessage loader st i payload ts) t'
      ↔ touches st t' ∨ (∃ m, payload = Except.ok m ∧ get_table_from_message m = t') := by
  cases payload with
  | error e =>
      constructor
      · intro h
        rcases h with h | h
        · exact Or.inl (Or.inl h)
        · exact Or.inl (Or.inr h)
      · intro h
        rcases h with (h | h) | ⟨m, hm, _⟩
        · exact Or.inl h
        · exact Or.inr h
        · cases hm
  | ok m =>
      simp only [stepMessage]
      split
      · constructor
        · rintro (h | h)
          · rcases (mem_addTable _ _ _).mp h with hh | hh
            · exact Or.inl (Or.inl hh)
            · exact Or.inr ⟨m, rfl, hh.symm⟩
          · by_cases ht : t' = get_table_from_message m
            · exact Or.inr ⟨m, rfl, ht.symm⟩
            · rw [hasRows_bufSet_ne _ _ _ _ ht, hasRows_bufAppend_ne _ _ _ _ ht] at h
              exact Or.inl (Or.inr h)
        · rintro ((h | h) | ⟨m0, hm0, hr⟩)
          · exact Or.inl ((mem_addTable _ _ _).mpr (Or.inl h))
          · by_cases ht : t' = get_table_from_message m
            · exact Or.inl ((mem_addTable _ _ _).mpr (Or.inr ht))
            · right
              rw [hasRows_bufSet_ne _ _ _ _ ht, hasRows_bufAppend_ne _ _ _ _ ht]
              exact h
          · injection hm0 with hmm
            subst hmm
            exact Or.inl ((mem_addTable _ _ _).mpr (Or.inr hr.symm))
      · constructor
        · rintro (h | h)
          · exact Or.inl (Or.inl h)
          · by_cases ht : t' = get_table_from_message m
            · exact Or.inr ⟨m, rfl, ht.symm⟩
            · rw [hasRows_bufAppend_ne _ _ _ _ ht] at h
              exact Or.inl (Or.inr h)
        · rintro ((h | h) | ⟨m0, hm0, hr⟩)
          · exact Or.inl h
          · by_cases ht : t' = get_table_from_message m
            · right
              rw [ht]
              exact hasRows_bufAppend_self _ _ _
            · right
              rw [hasRows_bufAppend_ne _ _ _ _ ht]
              exact h
          · injection hm0 with hmm
            subst hmm
            right
            rw [← hr]
            exact hasRows_bufAppend_self _ _ _

theorem runLoop_nil (loader : String → List Row → List String) (fuel i : Nat)
    (st : DriverState) : runLoop loader fuel i [] st = st := by
  cases fuel <;> rfl

theorem runLoop_processed (loader : String → List Row → List String) :
    ∀ (msgs : List (Except String Msg × Int)) (fuel i : Nat) (st : DriverState),
      (runLoop loader fuel i msgs st).processed
          + bufTotal (runLoop loader fuel i msgs st).buffer
        = st.processed + bufTotal st.buffer + decodeOkCount (msgs.take fuel) := by
  intro msgs
  induction msgs with
  | nil =>
      intro fuel i st
      rw [runLoop_nil]
      simp [decodeOkCount]
  | cons p rest ih =>
      intro fuel i st
      cases fuel with
      | zero => simp [runLoop, decodeOkCount]
      | succ f =>
          show (runLoop loader f (i + 1) rest (stepMessage loader st i p.1 p.2)).processed
              + bufTotal (runLoop loader f (i + 1) rest
                  (stepMessage loader st i p.1 p.2)).buffer = _
          rw [ih f (i + 1) (stepMessage loader st i p.1 p.2)]
          have hstep := stepMessage_processed_bufTotal loader st i p.1 p.2
          simp only [List.take_succ_cons, decodeOkCount, List.countP_cons] at *
          split at hstep <;> rename_i hok
          · rw [if_pos hok]
            omega
          · rw [if_neg hok]
            omega

theorem runLoop_touches (loader : String → List Row → List String) :
    ∀ (msgs : List (Except String Msg × Int)) (fuel i : Nat) (st : DriverState)
      (t : String),
      touches (runLoop loader fuel i msgs st) t
        ↔ touches st t
          ∨ ∃ p ∈ msgs.take fuel, ∃ m, p.1 = Except.ok m
              ∧ get_table_from_message m = t := by
  intro msgs
  induction msgs with
  | nil =>
      intro fuel i st t
      rw [runLoop_nil]
      simp
  | cons p rest ih =>
      intro fuel i st t
      cases fuel with
      | zero => simp [runLoop]
      | succ f =>
          show touches (runLoop loader f (i + 1) rest
              (stepMessage loader st i p.1 p.2)) t ↔ _
          rw [ih f (i + 1) (stepMessage loader st i p.1 p.2) t,
            stepMessage_touches loader st i p.1 p.2 t]
          simp only [List.take_succ_cons, List.mem_cons]
          constructor
          · rintro ((h | ⟨m, hm, hr⟩) | ⟨q, hq, m, hm, hr⟩)
            · exact Or.inl h
            · exact Or.inr ⟨p, Or.inl rfl, m, hm, hr⟩
            · exact Or.inr ⟨q, Or.inr hq, m, hm, hr⟩
          · rintro (h | ⟨q, hq | hq, m, hm, hr⟩)
            · exact Or.inl (Or.inl h)
            · exact Or.inl (Or.inr ⟨m, hq ▸ hm, hr⟩)
            · exact Or.inr ⟨q, hq, m, hm, hr⟩

theorem drainFold_processed (loader : String → List Row → List String) :
    ∀ (L : List (String × List Row)) (s : DriverState),
      (L.foldl (drainStep loader) s).processed
        = s.processed + (L.map (fun p => p.2.length)).sum := by
  intro L
  induction L with
  | nil => intro s; simp
  | cons p L ih =>
      intro s
      simp only [List.foldl_cons, ih, List.map_cons, List.sum_cons]
      unfold drainStep
      split
      · rename_i h
        simp [h]
      · simp only []
        omega

theorem drainFold_tables (loader : String → List Row → List String) :
    ∀ (L : List (String × List Row)) (s : DriverState) (t : String),
      t ∈ (L.foldl (drainStep loader) s).tables
        ↔ t ∈ s.tables ∨ ∃ p ∈ L, p.1 = t ∧ p.2 ≠ [] := by
  intro L
  induction L with
  | nil => intro s t; simp
  | cons p L ih =>
      intro s t
      simp only [List.foldl_cons, ih]
      unfold drainStep
      split
      · rename_i h
        constructor
        · rintro (hh | ⟨q, hq, hq1, hq2⟩)
          · exact Or.inl hh
          · exact Or.inr ⟨q, List.mem_cons_of_mem p hq, hq1, hq2⟩
        · rintro (hh | ⟨q, hq, hq1, hq2⟩)
          · exact Or.inl hh
          · rcases List.mem_cons.mp hq with rfl | hmem
            · exact absurd h hq2
            · exact Or.inr ⟨q, hmem, hq1, hq2⟩
      · rename_i h
        constructor
        · rintro (hh | ⟨q, hq, hq1, hq2⟩)
          · rcases (mem_addTable _ _ _).mp hh with h2 | h2
            · exact Or.inl h2
            · exact Or.inr ⟨p, List.mem_cons_self p L, h2.symm, h⟩
          · exact Or.inr ⟨q, List.mem_cons_of_mem p hq, hq1, hq2⟩
        · rintro (hh | ⟨q, hq, hq1, hq2⟩)
          · exact Or.inl ((mem_addTable _ _ _).mpr (Or.inl hh))
          · rcases List.mem_cons.mp hq with rfl | hmem
            · exact Or.inl ((mem_addTable _ _ _).mpr (Or.inr hq1.symm))
            · exact Or.inr ⟨q, hmem, hq1, hq2⟩

theorem drain_processed (loader : String → List Row → List String) (st : DriverState) :
    (drainBuffers loader st).processed = st.processed + bufTotal st.buffer :=
  drainFold_processed loader st.buffer st

theorem drain_tables (loader : String → List Row → List String) (st : DriverState)
    (t : String) :
    t ∈ (drainBuffers loader st).tables ↔ t ∈ st.tables ∨ hasRows st.buffer t :=
  drainFold_tables loader st.buffer st t

/-- **C9.** `messages_processed` counts exactly the successfully
decoded messages of the consumed queue prefix (decode failures are
never counted), independently of every Loader outcome; a table is in
`tables_updated` exactly when some successfully decoded message
routed to it (flushes are counted even when every row of the flush
failed, since the loader's error list does not gate the counters);
and the `processed` counter only ever changes in a step that emits a
flush event, by exactly the size of the flushed batch. -/
theorem process_counters_characterization (loader : String → List Row → List String)
    (msgs : List (Except String Msg × Int)) (maxM : Nat) :
    (process_rabbitmq_messages loader msgs maxM).processed
        = decodeOkCount (msgs.take maxM)
    ∧ (∀ t, t ∈ (process_rabbitmq_messages loader msgs maxM).tables
        ↔ ∃ p ∈ msgs.take maxM, ∃ m, p.1 = Except.ok m
            ∧ get_table_from_message m = t)
    ∧ (∀ (st : DriverState) (i : Nat) (payload : Except String Msg) (ts : Int),
        (stepMessage loader st i payload ts).processed = st.processed
        ∨ ∃ t rows, (stepMessage loader st i payload ts).events
              = st.events ++ [Event.flush t rows, Event.ack i]
            ∧ (stepMessage loader st i payload ts).processed
                = st.processed + rows.length) := by
  refine ⟨?_, ?_, ?_⟩
  · unfold process_rabbitmq_messages
    rw [drain_processed]
    have h := runLoop_processed loader msgs maxM 0 initState
    simp only [initState, bufTotal, List.map_nil, List.sum_nil, Nat.add_zero,
      Nat.zero_add] at h
    exact h
  · intro t
    unfold process_rabbitmq_messages
    rw [drain_tables]
    have h := runLoop_touches loader msgs maxM 0 initState t
    unfold touches at h
    simp only [initState, hasRows, List.not_mem_nil, false_and, exists_false,
      or_false, false_or] at h
    exact h
  · intro st i payload ts
    cases payload with
    | error e => exact Or.inl rfl
    | ok m =>
        simp only [stepMessage]
        split
        · exact Or.inr ⟨_, _, rfl, rfl⟩
        · exact Or.inl rfl

/-- The queue entry of a decodable message with its transform time. -/
def toPayload (x : Msg × Int) : Except String Msg × Int := (Except.ok x.1, x.2)

/-- The row the transformer produces for a queue entry. -/
def rowOf (x : Msg × Int) : Row := transform_message x.1 x.2

/-- `n` consecutive positive acknowledgments starting at tag `i`. -/
def acksFrom (i n : Nat) : List Event := (List.range' i n).map Event.ack

/-- Whether an event is a Loader call. -/
def isFlushEvent : Event → Bool
  | .flush _ _ => true
  | _ => false

theorem acksFrom_succ (i n : Nat) :
    acksFrom i (n + 1) = Event.ack i :: acksFrom (i + 1) n := by
  simp [acksFrom, List.range'_succ]

theorem runLoop_single_table (loader : String → List Row → List String) (t : String) :
    ∀ (rest : List (Msg × Int)) (e : Msg × Int) (st : DriverState) (i fuel : Nat),
      (∀ x ∈ e :: rest, get_table_from_message x.1 = t) →
      (bufGet st.buffer t).length + rest.length + 1 = 100 →
      rest.length < fuel →
      runLoop loader fuel i ((e :: rest).map toPayload) st =
        { buffer := bufSet ((e :: rest).foldl
              (fun b x => bufAppend b t (rowOf x)) st.buffer) t [],
          processed := st.processed + 100,
          tables := addTable st.tables t,
          errors := st.errors ++ loader t (bufGet st.buffer t ++ (e :: rest).map rowOf),
          events := st.events ++ acksFrom i rest.length
            ++ [Event.flush t (bufGet st.buffer t ++ (e :: rest).map rowOf),
                Event.ack (i + rest.length)] } := by
  intro rest
  induction rest with
  | nil =>
      intro e st i fuel hroute hlen hfuel
      cases fuel with
      | zero => omega
      | succ f =>
          show runLoop loader f (i + 1) []
              (stepMessage loader st i (Except.ok e.1) e.2) = _
          rw [runLoop_nil]
          have ht : get_table_from_message e.1 = t :=
            hroute e (List.mem_cons_self e [])
          have hcur : (bufGet st.buffer t ++ [transform_message e.1 e.2]).length = 100 := by
            simp only [List.length_nil] at hlen
            simp only [List.length_append, List.length_cons, List.length_nil]
            omega
          simp only [stepMessage, ht, bufGet_bufAppend_self]
          rw [if_pos hcur.ge]
          simp only [hcur, acksFrom, List.range', List.map_nil, rowOf,
            List.map_cons, List.nil_append, List.append_nil, List.length_nil,
            Nat.add_zero, List.foldl_cons, List.foldl_nil]
  | cons r rest' ih =>
      intro e st i fuel hroute hlen hfuel
      cases fuel with
      | zero => omega
      | succ f =>
          show runLoop loader f (i + 1) ((r :: rest').map toPayload)
              (stepMessage loader st i (Except.ok e.1) e.2) = _
          have ht : get_table_from_message e.1 = t :=
            hroute e (List.mem_cons_self e (r :: rest'))
          have hstep : stepMessage loader st i (Except.ok e.1) e.2 =
              { st with
                buffer := bufAppend st.buffer t (transform_message e.1 e.2),
                events := st.events ++ [Event.ack i] } := by
            simp only [stepMessage, ht, bufGet_bufAppend_self]
            rw [if_neg (by
              simp only [List.length_append, List.length_cons, List.length_nil]
              simp only [List.length_cons] at hlen
              omega)]
          rw [hstep]
          rw [ih r _ (i + 1) f
            (fun x hx => hroute x (List.mem_cons_of_mem e hx))
            (by
              simp only [bufGet_bufAppend_self, List.length_append,
                List.length_cons, List.length_nil]
              simp only [List.length_cons] at hlen
              omega)
            (by
              simp only [List.length_cons] at hfuel
              omega)]
          have hidx : i + 1 + rest'.length = i + (rest'.length + 1) := by omega
          simp only [bufGet_bufAppend_self, List.length_cons, List.foldl_cons,
            List.map_cons, acksFrom_succ, rowOf, List.append_assoc,
            List.singleton_append, List.cons_append, List.nil_append, hidx]

theorem foldl_bufAppend_single (t : String) :
    ∀ (l : List (Msg × Int)) (rows : List Row),
      l.foldl (fun b x => bufAppend b t (rowOf x)) [(t, rows)]
        = [(t, rows ++ l.map rowOf)] := by
  intro l
  induction l with
  | nil => intro rows; simp
  | cons x l ih =>
      intro rows
      simp only [List.foldl_cons]
      rw [show bufAppend [(t, rows)] t (rowOf x) = [(t, rows ++ [rowOf x])] by
        simp [bufAppend]]
      rw [ih]
      simp

theorem countP_acksFrom (i n : Nat) :
    (acksFrom i n).countP isFlushEvent = 0 := by
  simp [acksFrom, List.countP_map, Function.comp, isFlushEvent]

/-- **C2.** Appending exactly the threshold number (100) of rows to
one table's buffer — a queue of 100 decodable messages all routing
to table `t` — triggers exactly one Loader flush, carrying exactly
the 100 transformed rows, and the buffer for that table is empty
immediately after (and stays empty through the final drain, which
therefore performs no further flush). -/
theorem batch_threshold_single_flush (loader : String → List Row → List String)
    (entries : List (Msg × Int)) (t : String)
    (hlen : entries.length = 100)
    (hroute : ∀ e ∈ entries, get_table_from_message e.1 = t) :
    (process_rabbitmq_messages loader (entries.map toPayload) 100).events
        = acksFrom 0 99 ++ [Event.flush t (entries.map rowOf), Event.ack 99]
    ∧ ((process_rabbitmq_messages loader (entries.map toPayload) 100).events.countP
          isFlushEvent) = 1
    ∧ (entries.map rowOf).length = 100
    ∧ bufGet (process_rabbitmq_messages loader (entries.map toPayload) 100).buffer t
        = [] := by
  cases entries with
  | nil => simp at hlen
  | cons e rest =>
      have hr : rest.length = 99 := by
        simp only [List.length_cons] at hlen
        omega
      have hrun := runLoop_single_table loader t rest e initState 0 100 hroute
        (by simp only [initState, bufGet, List.length_nil]; omega)
        (by omega)
      unfold process_rabbitmq_messages
      rw [hrun]
      have hbuf : (e :: rest).foldl (fun b x => bufAppend b t (rowOf x))
          initState.buffer = [(t, (e :: rest).map rowOf)] := by
        simp only [List.foldl_cons, initState]
        rw [show bufAppend ([] : List (String × List Row)) t (rowOf e)
            = [(t, [rowOf e])] from rfl]
        rw [foldl_bufAppend_single]
        simp
      rw [hbuf]
      rw [show bufSet [(t, (e :: rest).map rowOf)] t [] = [(t, [])] by
        simp [bufSet]]
      rw [show ∀ s : DriverState, s.buffer = [(t, [])] → drainBuffers loader s = s from
        fun s hs => by simp [drainBuffers, hs, drainStep]]
      · refine ⟨?_, ?_, ?_, ?_⟩
        · simp [initState, bufGet, hr]
        · simp only [initState, hr]
          rw [show bufGet ([] : List (String × List Row)) t ++ (e :: rest).map rowOf
              = (e :: rest).map rowOf from rfl]
          simp only [List.countP_append, countP_acksFrom, List.nil_append]
          simp [List.countP_cons, isFlushEvent]
        · simp [hr]
        · simp [bufGet]
      · rfl

/-- 100 copies of `orderMsg` with their transform times. -/
def orderEntries : List (Msg × Int) := List.replicate 100 (orderMsg, 0)

set_option maxRecDepth 20000 in
/-- Witness for `batch_threshold_single_flush` on the concrete queue
of 100 `orderMsg` copies. -/
theorem batch_threshold_single_flush_witness :
    orderEntries.length = 100
    ∧ (∀ e ∈ orderEntries, get_table_from_message e.1 = "order")
    ∧ ((process_rabbitmq_messages loaderOk (orderEntries.map toPayload) 100).events
          = acksFrom 0 99
            ++ [Event.flush "order" (orderEntries.map rowOf), Event.ack 99]
      ∧ ((process_rabbitmq_messages loaderOk
            (orderEntries.map toPayload) 100).events.countP isFlushEvent) = 1
      ∧ (orderEntries.map rowOf).length = 100
      ∧ bufGet (process_rabbitmq_messages loaderOk
            (orderEntries.map toPayload) 100).buffer "order" = []) :=
  ⟨by decide, by decide,
   batch_threshold_single_flush loaderOk orderEntries "order" (by decide) (by decide)⟩
